import Mathlib

/-!
Shallow embedding of the core of the `stortroopers` character editor
(`src/stortrooper_editor/model.py` and `src/stortrooper_editor/ui.py`):
the inventory parser, the per-layer selection state of `CanvasWidget`,
the export geometry of `save_image`, and the project save/load path.
Python dicts are modelled as insertion-ordered association lists with
unique keys; the filesystem and Qt image decoding are modelled as
explicit environment parameters.
-/

set_option autoImplicit false

namespace Stortrooper

/-- `Article` from `model.py`: one selectable item of the inventory. -/
structure Article where
  id : String
  image_name : String
  category : String
  layer_name : String
  x : Int
  y : Int
  wearing : String
  local_path : String
deriving DecidableEq, Repr

/-! ### Python-dict model

Python dicts preserve insertion order; `d[k] = v` updates in place when the
key is present and appends otherwise, and `del d[k]` removes the entry.
They are modelled as association lists. -/

def dictGet {α : Type} (d : List (String × α)) (k : String) : Option α :=
  (d.find? (fun p => p.1 == k)).map (fun p => p.2)

def dictHas {α : Type} (d : List (String × α)) (k : String) : Bool :=
  (dictGet d k).isSome

def dictDel {α : Type} (d : List (String × α)) (k : String) : List (String × α) :=
  d.filter (fun p => !(p.1 == k))

def dictSet {α : Type} (d : List (String × α)) (k : String) (v : α) : List (String × α) :=
  if dictHas d k then d.map (fun p => if p.1 == k then (k, v) else p)
  else d ++ [(k, v)]

/-! ### Inventory parsing (`CharacterData.load`) -/

/-- Python whitespace as stripped by `str.strip()` (ASCII range). -/
def isPySpace (c : Char) : Bool :=
  c == ' ' || c == '\t' || c == '\n' || c == '\r' || c == '\x0b' || c == '\x0c'

/-- `str.strip()` on the characters of a line (the string functions of the
Lean core library are well-founded recursions, so the text handling is
modelled structurally over `List Char`). -/
def pyStrip (l : List Char) : List Char :=
  ((l.dropWhile isPySpace).reverse.dropWhile isPySpace).reverse

/-- Python `int(s)` on the strings arising here: optional surrounding
whitespace, an optional sign, then ASCII digits optionally separated by
single underscores (CPython accepts `"1_0"` but not `"_1"`, `"1_"` or
`"1__0"`). Accumulates the value; `none` models a raised `ValueError`. -/
def pyDigitsGo (acc : Nat) : List Char → Option Nat
  | [] => some acc
  | '_' :: c :: rest =>
      if c.isDigit then pyDigitsGo (acc * 10 + (c.toNat - 48)) rest else none
  | c :: rest =>
      if c.isDigit then pyDigitsGo (acc * 10 + (c.toNat - 48)) rest else none

def pyDigits? : List Char → Option Nat
  | [] => none
  | c :: rest => if c.isDigit then pyDigitsGo (c.toNat - 48) rest else none

def pyInt? (s : List Char) : Option Int :=
  match pyStrip s with
  | '+' :: rest => (pyDigits? rest).map Int.ofNat
  | '-' :: rest => (pyDigits? rest).map (fun n => -(Int.ofNat n))
  | cs => (pyDigits? cs).map Int.ofNat

/-- `x = int(parts[4]); y = int(parts[5])` inside a single
`try/except ValueError` that sets `x = 0; y = 0`: if either conversion
fails, both coordinates end up `0`. -/
def parseXY (sx sy : List Char) : Int × Int :=
  match pyInt? sx, pyInt? sy with
  | some x, some y => (x, y)
  | _, _ => (0, 0)

/-- `line.split('"')`: split on every double-quote, keeping empty pieces
(they are filtered afterwards, as in the Python list comprehension). -/
def splitQuoteAux : List Char → List Char → List (List Char)
  | [], acc => [acc.reverse]
  | c :: rest, acc =>
      if c == '"' then acc.reverse :: splitQuoteAux rest []
      else splitQuoteAux rest (c :: acc)

/-- `[p for p in line.split('"') if p.strip()]`. -/
def quoteSplit (line : List Char) : List (List Char) :=
  (splitQuoteAux line []).filter (fun p => !(pyStrip p).isEmpty)

/-- Substring containment on the character lists, modelling Python
`pat in s`. -/
def charsContain (pat : List Char) : List Char → Bool
  | [] => pat.isEmpty
  | c :: rest => pat.isPrefixOf (c :: rest) || charsContain pat rest

/-- `"HCDataSetFile_data" in line`. -/
def hasDataToken (l : List Char) : Bool :=
  charsContain "HCDataSetFile_data".toList l

/-- `"_brazos_arriba" in img_name`. -/
def hasBrazosArriba (s : String) : Bool :=
  charsContain "_brazos_arriba".toList s.toList

/-- `line.startswith("#")` on an already-stripped line. -/
def startsWithHash : List Char → Bool
  | '#' :: _ => true
  | _ => false

/-- `os.path.join` for the relative components used by the loader. -/
def pathJoin (a b : String) : String := a ++ "/" ++ b

/-- Mutable state of the parsing loop in `CharacterData.load`. -/
structure ParseState where
  in_data : Bool
  articles : List Article
  categories : List (String × List Article)
deriving DecidableEq, Repr

/-- `self.categories.setdefault`-style insertion:
`if category not in self.categories: self.categories[category] = []`
followed by `self.categories[category].append(article)`. -/
def catAppend (cats : List (String × List Article)) (c : String) (a : Article) :
    List (String × List Article) :=
  match dictGet cats c with
  | some l => dictSet cats c (l ++ [a])
  | none => dictSet cats c [a]

/-- The `if len(parts) >= 7` body of the data-mode branch: extract the seven
fields, parse `x`/`y`, drop `_brazos_arriba` variants, build the `Article`
with `local_path = root_path/data/img_name` and append it to `articles`
and to its category list. -/
def parseRecord (root_path : String) (st : ParseState)
    (parts : List (List Char)) : ParseState :=
  match parts with
  | art_id :: img_name :: category :: layer :: sx :: sy :: wearing :: _ =>
      let xy := parseXY sx sy
      if hasBrazosArriba ⟨img_name⟩ then st
      else
        let article : Article :=
          ⟨⟨art_id⟩, ⟨img_name⟩, ⟨category⟩, ⟨layer⟩, xy.1, xy.2, ⟨wearing⟩,
            pathJoin (pathJoin root_path "data") ⟨img_name⟩⟩
        { st with
            articles := st.articles ++ [article],
            categories := catAppend st.categories ⟨category⟩ article }
  | _ => st

/-- One iteration of the `for line in lines` loop of `CharacterData.load`:
strip, skip blanks and `#`-comments, switch to data mode on the sentinel
token, and in data mode parse the quote-delimited record. -/
def processLine (root_path : String) (st : ParseState) (raw : String) :
    ParseState :=
  let line := pyStrip raw.toList
  if line.isEmpty || startsWithHash line then st
  else if hasDataToken line then { st with in_data := true }
  else if st.in_data then parseRecord root_path st (quoteSplit line)
  else st

/-- The whole parsing loop, from the initial `in_data = False`, empty-lists
state, over the lines of the inventory file. -/
def loadArticles (root_path : String) (lines : List String) : ParseState :=
  lines.foldl (processLine root_path) ⟨false, [], []⟩

/-- `CharacterData`: catalog for one character and one inventory file.
The per-instance `layer_order` field is always initialised to the same
hard-coded list, modelled by the constant `layer_order` below. -/
structure CharacterData where
  name : String
  root_path : String
  articles_filename : String
  articles : List Article
  categories : List (String × List Article)
deriving DecidableEq, Repr

/-- The hard-coded back-to-front layer priority list. -/
def layer_order : List String :=
  ["behind", "body", "hair", "underware", "tops", "shoes", "bottoms",
   "jackets", "hats", "infront"]

/-- `self.layer_z_index.get(article.layer_name, 0)` where `layer_z_index`
maps each entry of `layer_order` to its index. -/
def get_article_z_index (a : Article) : Nat :=
  match layer_order.indexOf? a.layer_name with
  | some i => i
  | none => 0

/-- `CharacterData.__init__` followed by `load`, with the file contents
supplied as a list of lines (the missing-file case yields an empty line
list and hence an empty catalog). -/
def CharacterData.load (name res_path articles_filename : String)
    (lines : List String) : CharacterData :=
  let root_path := pathJoin res_path name
  let ps := loadArticles root_path lines
  ⟨name, root_path, articles_filename, ps.articles, ps.categories⟩

/-- Modelled from the spec: `get_article_by_id` is called by
`MainWindow.open_project_file` and by `tests/test_model.py` but its
definition is not under `src/`. Per the spec (§4.1 `find_by_id`): returns
the first article in catalog (file) order whose id matches, or no match. -/
def get_article_by_id (cd : CharacterData) (art_id : String) : Option Article :=
  cd.articles.find? (fun a => a.id == art_id)

/-- Modelled from the spec: `get_random_outfit` is called by
`MainWindow.randomize_character` but its definition is not under `src/`.
Per the spec (§4.4 `random_outfit`): one article drawn at random from each
category's list, empty categories contributing nothing, empty catalog
giving an empty result. The random draw is modelled by an index oracle
`choose`; the drawn index is `choose c % length` of the category list. -/
def get_random_outfit (cd : CharacterData) (choose : String → Nat) :
    List Article :=
  cd.categories.foldr
    (fun p acc =>
      match p.2.get? (choose p.1 % p.2.length) with
      | some a => a :: acc
      | none => acc)
    []

/-! ### Canvas selection state (`CanvasWidget` in `ui.py`)

A `QPixmap` is modelled by its pixel dimensions; `QPixmap(path)` never
raises and yields a null pixmap (zero width or height) on decode failure,
so image decoding is an environment parameter `decode : String → Pixmap`.
The graphics scene's item set always mirrors `pixmap_items` (every scene
mutation in the code is paired with the corresponding `pixmap_items`
mutation), so the scene is modelled as the values of `pixmap_items`. -/

structure Pixmap where
  width : Nat
  height : Nat
deriving DecidableEq, Repr

def Pixmap.isNull (p : Pixmap) : Bool := p.width == 0 || p.height == 0

/-- A `QGraphicsPixmapItem` placed on the scene: pixmap, position (from
`item.setPos(article.x, article.y)`), and z-value. -/
structure PixItem where
  pixmap : Pixmap
  posX : Int
  posY : Int
  zValue : Nat
deriving DecidableEq, Repr

/-- State of one `CanvasWidget`. `character_data` is an instance attribute
first created by `set_character`; `none` models the attribute not existing
yet (a fresh widget). -/
structure CanvasState where
  character_data : Option CharacterData
  active_articles : List (String × Article)
  pixmap_items : List (String × PixItem)
deriving DecidableEq, Repr

/-- `CanvasWidget.__init__`: empty maps, no `character_data` attribute. -/
def freshCanvas : CanvasState := ⟨none, [], []⟩

/-- `CanvasWidget.clear`: empties `active_articles`, the scene, and
`pixmap_items`. -/
def CanvasState.clear (st : CanvasState) : CanvasState :=
  { st with active_articles := [], pixmap_items := [] }

/-- `CanvasWidget.set_character`: stores the catalog, then `clear()`. -/
def set_character (st : CanvasState) (cd : CharacterData) : CanvasState :=
  CanvasState.clear { st with character_data := some cd }

/-- `CanvasWidget.update_article`: remove any existing item on the
article's layer from both maps, then decode the image; on a null pixmap
log an error and return (the layer stays empty), otherwise insert the
placed item and the article into both maps.

Two notes on fidelity: the `del self.active_articles[...]` in the removal
branch would raise `KeyError` were the key present in `pixmap_items` but
absent from `active_articles`; the two maps always hold the same keys in
reachable states (proved below), so the total `dictDel` is equivalent
there. Likewise `self.character_data` is read only after a successful
decode; if the attribute does not exist Python raises `AttributeError` at
that point, leaving the maps in their post-removal state, which is the
value returned in the `none` case. -/
def update_article (decode : String → Pixmap) (st : CanvasState)
    (article : Article) : CanvasState :=
  let st1 :=
    if dictHas st.pixmap_items article.layer_name then
      { st with
          pixmap_items := dictDel st.pixmap_items article.layer_name,
          active_articles := dictDel st.active_articles article.layer_name }
    else st
  let pixmap := decode article.local_path
  if pixmap.isNull then st1
  else
    match st1.character_data with
    | none => st1
    | some _ =>
        let z := get_article_z_index article
        { st1 with
            pixmap_items :=
              dictSet st1.pixmap_items article.layer_name
                ⟨pixmap, article.x, article.y, z⟩,
            active_articles :=
              dictSet st1.active_articles article.layer_name article }

/-- `CanvasWidget.remove_article`: delete the layer's entry from both maps
only when the currently active article there has the same id. -/
def remove_article (st : CanvasState) (article : Article) : CanvasState :=
  if dictHas st.pixmap_items article.layer_name then
    match dictGet st.active_articles article.layer_name with
    | some current =>
        if current.id == article.id then
          { st with
              pixmap_items := dictDel st.pixmap_items article.layer_name,
              active_articles := dictDel st.active_articles article.layer_name }
        else st
    | none => st
  else st

/-- `CanvasWidget.is_article_active`. -/
def is_article_active (st : CanvasState) (article : Article) : Bool :=
  match dictGet st.active_articles article.layer_name with
  | some current => current.id == article.id
  | none => false

/-- The four canvas-mutating operations, for stating reachability. -/
inductive CanvasOp where
  | setCharacter (cd : CharacterData)
  | clearOp
  | update (a : Article)
  | remove (a : Article)

def applyOp (decode : String → Pixmap) (st : CanvasState) :
    CanvasOp → CanvasState
  | CanvasOp.setCharacter cd => set_character st cd
  | CanvasOp.clearOp => CanvasState.clear st
  | CanvasOp.update a => update_article decode st a
  | CanvasOp.remove a => remove_article st a

def applyOps (decode : String → Pixmap) (ops : List CanvasOp) : CanvasState :=
  ops.foldl (applyOp decode) freshCanvas

/-! ### Export geometry (`CanvasWidget.save_image`)

`QRectF` is modelled by `x`, `y`, `w`, `h` (all integral here). -/

structure RectF where
  rx : Int
  ry : Int
  rw : Int
  rh : Int
deriving DecidableEq, Repr

/-- `QRectF.isNull`: both width and height are zero. -/
def RectF.isNullRect (r : RectF) : Bool := r.rw == 0 && r.rh == 0

/-- `QRectF.isEmpty`: width or height is not positive. -/
def RectF.isEmptyRect (r : RectF) : Bool := r.rw ≤ 0 || r.rh ≤ 0

/-- `QRectF.adjust(dx1, dy1, dx2, dy2)`. -/
def RectF.adjust (r : RectF) (dx1 dy1 dx2 dy2 : Int) : RectF :=
  ⟨r.rx + dx1, r.ry + dy1, r.rw + (dx2 - dx1), r.rh + (dy2 - dy1)⟩

/-- `QRectF.united` / `operator|`: uniting with a null rectangle returns
the other operand, otherwise the common bounding box. -/
def RectF.unite (a b : RectF) : RectF :=
  if a.isNullRect then b
  else if b.isNullRect then a
  else
    let l := min a.rx b.rx
    let t := min a.ry b.ry
    let r := max (a.rx + a.rw) (b.rx + b.rw)
    let bo := max (a.ry + a.rh) (b.ry + b.rh)
    ⟨l, t, r - l, bo - t⟩

/-- `item.sceneBoundingRect()` of a placed pixmap item. -/
def itemRect (it : PixItem) : RectF :=
  ⟨it.posX, it.posY, (it.pixmap.width : Int), (it.pixmap.height : Int)⟩

/-- `QGraphicsScene.itemsBoundingRect`: the union of the items' scene
bounding rectangles, starting from the null rectangle. -/
def itemsBoundingRect (items : List PixItem) : RectF :=
  items.foldl (fun r it => r.unite (itemRect it)) ⟨0, 0, 0, 0⟩

/-- The geometry part of `CanvasWidget.save_image`: the scene items'
bounding rectangle, replaced by the fixed `QRectF(0, 0, 300, 300)` when
empty, then `rect.adjust(-10, -10, 10, 10)`; the output `QImage` has the
size of the resulting rectangle. -/
def save_image_rect (st : CanvasState) : RectF :=
  let rect := itemsBoundingRect (st.pixmap_items.map (fun p => p.2))
  let rect := if rect.isEmptyRect then ⟨0, 0, 300, 300⟩ else rect
  rect.adjust (-10) (-10) 10 10

/-- Width and height of the exported image buffer. -/
def save_image_size (st : CanvasState) : Int × Int :=
  ((save_image_rect st).rw, (save_image_rect st).rh)

/-! ### Project store (`MainWindow._save_to_file` / `open_project_file`) -/

/-- The JSON document written by `_save_to_file`. -/
structure ProjectDoc where
  character_name : String
  articles_file : String
  active_articles : List String
deriving DecidableEq, Repr

/-- `MainWindow._save_to_file`: the saved ids are the ids of the values of
the active map, in insertion order. (`save_project` guards on the
`character_data` attribute existing, modelled by the `none` case.) -/
def save_to_file (st : CanvasState) : Option ProjectDoc :=
  match st.character_data with
  | some cd =>
      some ⟨cd.name, cd.articles_filename,
        st.active_articles.map (fun p => p.2.id)⟩
  | none => none

/-- One iteration of the restore loop of `open_project_file`: resolve the
saved id via `get_article_by_id`; a hit is applied with `update_article`,
a miss is logged as a warning and skipped. -/
def restore_step (decode : String → Pixmap) (cd : CharacterData)
    (st : CanvasState) (art_id : String) : CanvasState :=
  match get_article_by_id cd art_id with
  | some a => update_article decode st a
  | none => st

/-- The selection-restoring tail of `open_project_file`: after
`reload_data` has loaded the referenced catalog `cd` into the new canvas,
the canvas is cleared and every saved id is applied in saved order. -/
def open_project_apply (decode : String → Pixmap) (cd : CharacterData)
    (doc : ProjectDoc) : CanvasState :=
  doc.active_articles.foldl (restore_step decode cd)
    (CanvasState.clear ⟨some cd, [], []⟩)

/-- The outfit-randomising tail of `MainWindow.randomize_character`
(steps 1–2 mutate only combo boxes): bail out when `character_data` is
absent, report "nothing to randomize" on an empty outfit, otherwise clear
the canvas and select each drawn article. -/
def randomize_character (decode : String → Pixmap) (choose : String → Nat)
    (st : CanvasState) : CanvasState :=
  match st.character_data with
  | none => st
  | some cd =>
      let new_outfit := get_random_outfit cd choose
      if new_outfit.isEmpty then st
      else new_outfit.foldl (update_article decode) st.clear

/-! ### Concrete fixtures for witnesses and counterexamples -/

/-- The inventory file written by the pytest fixture `tests/conftest.py`. -/
def fixtureLines : List String :=
  ["", "# This is a comment", "\"HCDataSetFile_data\" \"1.0\"", "",
   "\"1\" \"body.png\" \"body\" \"body\" \"0\" \"0\" \"-1\"",
   "\"2\" \"shirt.png\" \"tops\" \"tops\" \"10\" \"20\" \"-1\"", "    "]

def fixtureCatalog : CharacterData :=
  CharacterData.load "hero" "res" "articles.txt" fixtureLines

/-- An inventory with an `_brazos_arriba` pose variant (the example quoted
in the comments of `CharacterData.load`) and a record with a non-numeric
`x` field. -/
def filterLines : List String :=
  ["\"HCDataSetFile_data\" \"1.0\"",
   "\"10\" \"boy_body_02.gif\" \"body\" \"body\" \"26\" \"28\" \"-1\"",
   "\"10\" \"boy_body_02_brazos_arriba.gif\" \"body\" \"body\" \"26\" \"28\" \"0\"",
   "\"2\" \"shirt.png\" \"tops\" \"tops\" \"aa\" \"20\" \"-1\""]

def filterCatalog : CharacterData :=
  CharacterData.load "boy" "res" "articles.txt" filterLines

/-- Decoding environment in which every image decodes to a 1×1 pixmap. -/
def decodeAll : String → Pixmap := fun _ => ⟨1, 1⟩

/-- Decoding environment in which every decode fails (null pixmap). -/
def decodeNone : String → Pixmap := fun _ => ⟨0, 0⟩

def bodyArt : Article :=
  ⟨"1", "body.png", "body", "body", 0, 0, "-1", "res/hero/data/body.png"⟩

def shirtArt : Article :=
  ⟨"2", "shirt.png", "tops", "tops", 10, 20, "-1", "res/hero/data/shirt.png"⟩

/-- Two pose variants sharing id `"1"` on different layers: the file
format allows repeated ids, and `get_article_by_id` always returns the
catalog-order first match. -/
def rtArticleA : Article := ⟨"1", "a.gif", "body", "body", 0, 0, "-1", "pa"⟩

def rtArticleB : Article := ⟨"1", "b.gif", "tops", "tops", 0, 0, "-1", "pb"⟩

def rtCatalog : CharacterData :=
  ⟨"boy", "res/boy", "articles.txt", [rtArticleA, rtArticleB],
   [("body", [rtArticleA]), ("tops", [rtArticleB])]⟩

/-- Selection holding only the second (non-first-match) article. -/
def rtState : CanvasState :=
  update_article decodeAll (set_character freshCanvas rtCatalog) rtArticleB

def rtDoc : ProjectDoc := ⟨"boy", "articles.txt", ["1"]⟩

/-- First record of `filterLines` as the loader produces it. -/
def boyBodyArt : Article :=
  ⟨"10", "boy_body_02.gif", "body", "body", 26, 28, "-1",
   "res/boy/data/boy_body_02.gif"⟩

/-- A canvas with `bodyArt` active on layer `"body"` (the state produced
by selecting it under `decodeAll`). -/
def c3State : CanvasState :=
  ⟨some fixtureCatalog, [("body", bodyArt)], [("body", ⟨⟨1, 1⟩, 0, 0, 1⟩)]⟩

/-- Selecting body then shirt on a fresh document. -/
def c4State : CanvasState :=
  [bodyArt, shirtArt].foldl (update_article decodeAll)
    (set_character freshCanvas fixtureCatalog)

/-- A catalog with zero categories. -/
def emptyCatalog : CharacterData := ⟨"x", "res/x", "articles.txt", [], []⟩

def emptyState : CanvasState := ⟨some emptyCatalog, [], []⟩

/-- The document `_save_to_file` writes for `c4State`. -/
def c1SavedDoc : ProjectDoc := ⟨"hero", "articles.txt", ["1", "2"]⟩

/-! ### Association-list (Python dict) lemmas -/

theorem dictGet_dictDel_self {α : Type} (d : List (String × α)) (k : String) :
    dictGet (dictDel d k) k = none := by
  have h : (dictDel d k).find? (fun p => p.1 == k) = none := by
    rw [List.find?_eq_none]
    intro p hp
    have := (List.mem_filter.mp hp).2
    simp only [Bool.not_eq_true'] at this
    simp [this]
  simp [dictGet, h]

theorem dictGet_cons {α : Type} (p : String × α) (d : List (String × α))
    (k : String) :
    dictGet (p :: d) k = if p.1 = k then some p.2 else dictGet d k := by
  by_cases h : p.1 = k
  · simp [dictGet, List.find?, h]
  · have hb : (p.1 == k) = false := by simp [h]
    simp [dictGet, List.find?, hb, h]

theorem dictHas_cons {α : Type} (p : String × α) (d : List (String × α))
    (k : String) :
    dictHas (p :: d) k = if p.1 = k then true else dictHas d k := by
  by_cases h : p.1 = k <;> simp [dictHas, dictGet_cons, h]

theorem dictHas_iff_mem_keys {α : Type} (d : List (String × α)) (k : String) :
    dictHas d k = true ↔ k ∈ d.map Prod.fst := by
  induction d with
  | nil => simp [dictHas, dictGet]
  | cons p rest ih =>
      by_cases h : p.1 = k
      · simp [dictHas_cons, h]
      · simp [dictHas_cons, h, ih, Ne.symm h]

theorem dictGet_setInPlace {α : Type} (d : List (String × α)) (k : String)
    (v : α) (h : dictHas d k = true) :
    dictGet (d.map (fun p => if p.1 == k then (k, v) else p)) k = some v := by
  induction d with
  | nil => simp [dictHas, dictGet] at h
  | cons p rest ih =>
      by_cases hp : p.1 = k
      · simp [hp, dictGet_cons]
      · have hrest : dictHas rest k = true := by
          simpa [dictHas_cons, hp] using h
        simpa [hp, dictGet_cons] using ih hrest

theorem dictGet_append_right {α : Type} (d : List (String × α)) (k : String)
    (v : α) (h : dictHas d k = false) :
    dictGet (d ++ [(k, v)]) k = some v := by
  induction d with
  | nil => simp [dictGet, List.find?]
  | cons p rest ih =>
      by_cases hp : p.1 = k
      · simp [dictHas_cons, hp] at h
      · have hrest : dictHas rest k = false := by
          simpa [dictHas_cons, hp] using h
        simpa [dictGet_cons, hp] using ih hrest

theorem dictGet_dictSet_self {α : Type} (d : List (String × α)) (k : String)
    (v : α) : dictGet (dictSet d k v) k = some v := by
  by_cases h : dictHas d k
  · simp only [dictSet, h, if_true]
    exact dictGet_setInPlace d k v h
  · simp only [dictSet, Bool.not_eq_true] at h ⊢
    rw [h]
    simp only [Bool.false_eq_true, if_false]
    exact dictGet_append_right d k v h

theorem dictSet_of_not_has {α : Type} (d : List (String × α)) (k : String)
    (v : α) (h : dictHas d k = false) : dictSet d k v = d ++ [(k, v)] := by
  simp [dictSet, h]

theorem keys_dictDel {α : Type} (d : List (String × α)) (k : String) :
    (dictDel d k).map Prod.fst = (d.map Prod.fst).filter (fun x => !(x == k)) := by
  induction d with
  | nil => rfl
  | cons p rest ih =>
      simp only [dictDel, List.filter] at ih ⊢
      by_cases h : p.1 = k
      · have hb : (p.1 == k) = true := by simp [h]
        simp [hb, ih]
      · have hb : (p.1 == k) = false := by simp [h]
        simp [hb, ih]

theorem keys_dictSet_of_has {α : Type} (d : List (String × α)) (k : String)
    (v : α) (h : dictHas d k = true) :
    (dictSet d k v).map Prod.fst = d.map Prod.fst := by
  simp only [dictSet, h, if_true, List.map_map]
  apply List.map_congr_left
  intro p _
  by_cases hp : p.1 = k <;> simp [hp]

theorem keys_dictSet_of_not_has {α : Type} (d : List (String × α)) (k : String)
    (v : α) (h : dictHas d k = false) :
    (dictSet d k v).map Prod.fst = d.map Prod.fst ++ [k] := by
  simp [dictSet_of_not_has d k v h]

theorem dictHas_congr_keys {α β : Type} (d₁ : List (String × α))
    (d₂ : List (String × β)) (k : String)
    (h : d₁.map Prod.fst = d₂.map Prod.fst) : dictHas d₁ k = dictHas d₂ k := by
  by_cases h1 : dictHas d₁ k = true
  · have hm := (dictHas_iff_mem_keys d₁ k).mp h1
    rw [h] at hm
    rw [h1, (dictHas_iff_mem_keys d₂ k).mpr hm]
  · have h1' : dictHas d₁ k = false := by
      cases hb : dictHas d₁ k
      · rfl
      · exact absurd hb h1
    cases hb : dictHas d₂ k
    · rw [h1']
    · have hm := (dictHas_iff_mem_keys d₂ k).mp hb
      rw [← h] at hm
      exact absurd ((dictHas_iff_mem_keys d₁ k).mpr hm) h1

theorem nodup_keys_dictDel {α : Type} (d : List (String × α)) (k : String)
    (h : (d.map Prod.fst).Nodup) : ((dictDel d k).map Prod.fst).Nodup := by
  rw [keys_dictDel]
  exact h.filter _

theorem nodup_keys_dictSet {α : Type} (d : List (String × α)) (k : String)
    (v : α) (h : (d.map Prod.fst).Nodup) :
    ((dictSet d k v).map Prod.fst).Nodup := by
  by_cases hh : dictHas d k
  · rw [keys_dictSet_of_has d k v hh]
    exact h
  · have hh' : dictHas d k = false := by
      cases hb : dictHas d k
      · rfl
      · exact absurd hb hh
    rw [keys_dictSet_of_not_has d k v hh']
    rw [List.nodup_append]
    refine ⟨h, List.nodup_singleton k, ?_⟩
    intro x hx hxk
    simp only [List.mem_singleton] at hxk
    subst hxk
    exact hh ((dictHas_iff_mem_keys d x).mpr hx)

theorem mem_dictSet {α : Type} {d : List (String × α)} {k : String} {v : α}
    {p : String × α} (hp : p ∈ dictSet d k v) : p ∈ d ∨ p = (k, v) := by
  by_cases h : dictHas d k
  · simp only [dictSet, h, if_true, List.mem_map] at hp
    obtain ⟨q, hq, hfq⟩ := hp
    by_cases hk : q.1 = k
    · right
      have hb : (q.1 == k) = true := by simp [hk]
      simp only [hb, if_true] at hfq
      exact hfq.symm
    · left
      have hb : (q.1 == k) = false := by simp [hk]
      simp only [hb, Bool.false_eq_true, if_false] at hfq
      exact hfq ▸ hq
  · have h' : dictHas d k = false := by
      cases hb : dictHas d k
      · rfl
      · exact absurd hb h
    rw [dictSet_of_not_has d k v h'] at hp
    rcases List.mem_append.mp hp with hl | hr
    · exact Or.inl hl
    · exact Or.inr (List.mem_singleton.mp hr)

theorem dictHas_dictDel_self {α : Type} (d : List (String × α)) (k : String) :
    dictHas (dictDel d k) k = false := by
  simp [dictHas, dictGet_dictDel_self]

/-! ### Canvas-state invariant lemmas -/

theorem character_data_update_article (decode : String → Pixmap)
    (st : CanvasState) (a : Article) :
    (update_article decode st a).character_data = st.character_data := by
  unfold update_article
  by_cases hp : dictHas st.pixmap_items a.layer_name <;>
    by_cases hn : (decode a.local_path).isNull = true <;>
      cases hcd : st.character_data <;>
        simp [hp, hn, hcd]

theorem character_data_foldl_update (decode : String → Pixmap)
    (seq : List Article) (st : CanvasState) :
    (seq.foldl (update_article decode) st).character_data
      = st.character_data := by
  induction seq generalizing st with
  | nil => rfl
  | cons a rest ih =>
      rw [List.foldl_cons, ih, character_data_update_article]

theorem sync_update_article (decode : String → Pixmap) (st : CanvasState)
    (a : Article)
    (h : st.active_articles.map Prod.fst = st.pixmap_items.map Prod.fst) :
    (update_article decode st a).active_articles.map Prod.fst
      = (update_article decode st a).pixmap_items.map Prod.fst := by
  have hsync1 :
      ∀ st1 : CanvasState,
        st1.active_articles.map Prod.fst = st1.pixmap_items.map Prod.fst →
        ∀ it : PixItem,
          (dictSet st1.active_articles a.layer_name a).map Prod.fst
            = (dictSet st1.pixmap_items a.layer_name it).map Prod.fst := by
    intro st1 h1 it
    by_cases hh : dictHas st1.active_articles a.layer_name
    · have hh2 : dictHas st1.pixmap_items a.layer_name = true := by
        rw [← dictHas_congr_keys _ _ _ h1]
        exact hh
      rw [keys_dictSet_of_has _ _ _ hh, keys_dictSet_of_has _ _ _ hh2, h1]
    · have hh1 : dictHas st1.active_articles a.layer_name = false := by
        cases hb : dictHas st1.active_articles a.layer_name
        · rfl
        · exact absurd hb hh
      have hh2 : dictHas st1.pixmap_items a.layer_name = false := by
        rw [← dictHas_congr_keys _ _ _ h1]
        exact hh1
      rw [keys_dictSet_of_not_has _ _ _ hh1,
        keys_dictSet_of_not_has _ _ _ hh2, h1]
  have hdel : (dictDel st.active_articles a.layer_name).map Prod.fst
      = (dictDel st.pixmap_items a.layer_name).map Prod.fst := by
    rw [keys_dictDel, keys_dictDel, h]
  unfold update_article
  by_cases hp : dictHas st.pixmap_items a.layer_name
  · simp only [hp, if_true]
    by_cases hn : (decode a.local_path).isNull = true
    · simp only [hn, if_true]
      exact hdel
    · have hn' : (decode a.local_path).isNull = false := by
        cases hb : (decode a.local_path).isNull
        · rfl
        · exact absurd hb hn
      simp only [hn', Bool.false_eq_true, if_false]
      cases hcd : st.character_data with
      | none => simp only [hcd]; exact hdel
      | some cd =>
          simp only [hcd]
          exact hsync1 ⟨some cd, dictDel st.active_articles a.layer_name,
            dictDel st.pixmap_items a.layer_name⟩ hdel _
  · simp only [hp, Bool.false_eq_true, if_false]
    by_cases hn : (decode a.local_path).isNull = true
    · simp only [hn, if_true]
      exact h
    · have hn' : (decode a.local_path).isNull = false := by
        cases hb : (decode a.local_path).isNull
        · rfl
        · exact absurd hb hn
      simp only [hn', Bool.false_eq_true, if_false]
      cases hcd : st.character_data with
      | none => simp only [hcd]; exact h
      | some cd =>
          simp only [hcd]
          exact hsync1 ⟨some cd, st.active_articles, st.pixmap_items⟩ h _

theorem sync_remove_article (st : CanvasState) (a : Article)
    (h : st.active_articles.map Prod.fst = st.pixmap_items.map Prod.fst) :
    (remove_article st a).active_articles.map Prod.fst
      = (remove_article st a).pixmap_items.map Prod.fst := by
  unfold remove_article
  by_cases hp : dictHas st.pixmap_items a.layer_name
  · simp only [hp, if_true]
    cases hg : dictGet st.active_articles a.layer_name with
    | none => exact h
    | some current =>
        by_cases hid : (current.id == a.id) = true
        · simp only [hid, if_true]
          rw [keys_dictDel, keys_dictDel, h]
        · have hid' : (current.id == a.id) = false := by
            cases hb : (current.id == a.id)
            · rfl
            · exact absurd hb hid
          simp only [hid', Bool.false_eq_true, if_false]
          exact h
  · simp only [hp, Bool.false_eq_true, if_false]
    exact h

theorem sync_applyOp (decode : String → Pixmap) (st : CanvasState)
    (op : CanvasOp)
    (h : st.active_articles.map Prod.fst = st.pixmap_items.map Prod.fst) :
    (applyOp decode st op).active_articles.map Prod.fst
      = (applyOp decode st op).pixmap_items.map Prod.fst := by
  cases op with
  | setCharacter cd => simp [applyOp, set_character, CanvasState.clear]
  | clearOp => simp [applyOp, CanvasState.clear]
  | update a => exact sync_update_article decode st a h
  | remove a => exact sync_remove_article st a h

theorem sync_foldl_applyOp (decode : String → Pixmap) (ops : List CanvasOp)
    (st : CanvasState)
    (h : st.active_articles.map Prod.fst = st.pixmap_items.map Prod.fst) :
    (ops.foldl (applyOp decode) st).active_articles.map Prod.fst
      = (ops.foldl (applyOp decode) st).pixmap_items.map Prod.fst := by
  induction ops generalizing st with
  | nil => exact h
  | cons op rest ih =>
      rw [List.foldl_cons]
      exact ih _ (sync_applyOp decode st op h)

theorem nodup_keys_update_article (decode : String → Pixmap)
    (st : CanvasState) (a : Article)
    (h : (st.active_articles.map Prod.fst).Nodup) :
    ((update_article decode st a).active_articles.map Prod.fst).Nodup := by
  unfold update_article
  by_cases hp : dictHas st.pixmap_items a.layer_name
  · simp only [hp, if_true]
    by_cases hn : (decode a.local_path).isNull = true
    · simp only [hn, if_true]
      exact nodup_keys_dictDel _ _ h
    · have hn' : (decode a.local_path).isNull = false := by
        cases hb : (decode a.local_path).isNull
        · rfl
        · exact absurd hb hn
      simp only [hn', Bool.false_eq_true, if_false]
      cases hcd : st.character_data with
      | none => simp only [hcd]; exact nodup_keys_dictDel _ _ h
      | some cd =>
          simp only [hcd]
          exact nodup_keys_dictSet _ _ _ (nodup_keys_dictDel _ _ h)
  · simp only [hp, Bool.false_eq_true, if_false]
    by_cases hn : (decode a.local_path).isNull = true
    · simp only [hn, if_true]
      exact h
    · have hn' : (decode a.local_path).isNull = false := by
        cases hb : (decode a.local_path).isNull
        · rfl
        · exact absurd hb hn
      simp only [hn', Bool.false_eq_true, if_false]
      cases hcd : st.character_data with
      | none => simp only [hcd]; exact h
      | some cd =>
          simp only [hcd]
          exact nodup_keys_dictSet _ _ _ h

theorem nodup_keys_foldl_update (decode : String → Pixmap)
    (seq : List Article) (st : CanvasState)
    (h : (st.active_articles.map Prod.fst).Nodup) :
    (((seq.foldl (update_article decode) st).active_articles.map Prod.fst)).Nodup := by
  induction seq generalizing st with
  | nil => exact h
  | cons a rest ih =>
      rw [List.foldl_cons]
      exact ih _ (nodup_keys_update_article decode st a h)

theorem update_article_select_success (decode : String → Pixmap)
    (st : CanvasState) (a : Article)
    (hcd : st.character_data.isSome = true)
    (hn : (decode a.local_path).isNull = false) :
    dictGet (update_article decode st a).active_articles a.layer_name
      = some a := by
  unfold update_article
  cases hc : st.character_data with
  | none => rw [hc] at hcd; simp at hcd
  | some cd =>
      by_cases hp : dictHas st.pixmap_items a.layer_name <;>
        simp only [hp, hc, hn, if_true, if_false, Bool.false_eq_true,
          Bool.true_eq_false] <;>
        exact dictGet_dictSet_self _ _ _

/-! ### Parser invariant lemmas -/

theorem dictGet_mem {α : Type} {d : List (String × α)} {k : String} {v : α}
    (h : dictGet d k = some v) : ∃ p ∈ d, p.2 = v := by
  unfold dictGet at h
  cases hf : d.find? (fun p => p.1 == k) with
  | none => rw [hf] at h; simp at h
  | some q =>
      rw [hf] at h
      exact ⟨q, List.mem_of_find?_eq_some hf, by simpa using h⟩

theorem catAppend_mem (cats : List (String × List Article)) (c : String)
    (a : Article) (p : String × List Article) (hp : p ∈ catAppend cats c a)
    (b : Article) (hb : b ∈ p.2) :
    (∃ q ∈ cats, b ∈ q.2) ∨ b = a := by
  unfold catAppend at hp
  cases hg : dictGet cats c with
  | some l =>
      rw [hg] at hp
      rcases mem_dictSet hp with hold | hnew
      · exact Or.inl ⟨p, hold, hb⟩
      · subst hnew
        rcases List.mem_append.mp hb with hl | hr
        · obtain ⟨q, hq, hqv⟩ := dictGet_mem hg
          exact Or.inl ⟨q, hq, hqv ▸ hl⟩
        · exact Or.inr (List.mem_singleton.mp hr)
  | none =>
      rw [hg] at hp
      rcases mem_dictSet hp with hold | hnew
      · exact Or.inl ⟨p, hold, hb⟩
      · subst hnew
        exact Or.inr (List.mem_singleton.mp hb)

theorem parseRecord_brazos_free (root : String) (st : ParseState)
    (parts : List (List Char))
    (ha : ∀ a ∈ st.articles, hasBrazosArriba a.image_name = false)
    (hc : ∀ p ∈ st.categories, ∀ a ∈ p.2, hasBrazosArriba a.image_name = false) :
    (∀ a ∈ (parseRecord root st parts).articles,
        hasBrazosArriba a.image_name = false) ∧
    (∀ p ∈ (parseRecord root st parts).categories, ∀ a ∈ p.2,
        hasBrazosArriba a.image_name = false) := by
  unfold parseRecord
  split
  · rename_i p0 p1 p2 p3 p4 p5 p6 rest
    by_cases hb : hasBrazosArriba ⟨p1⟩ = true
    · simp only [hb, if_true]
      exact ⟨ha, hc⟩
    · have hb' : hasBrazosArriba ⟨p1⟩ = false := by
        cases hx : hasBrazosArriba ⟨p1⟩
        · rfl
        · exact absurd hx hb
      simp only [hb', Bool.false_eq_true, if_false]
      constructor
      · intro a hamem
        rcases List.mem_append.mp hamem with h1 | h2
        · exact ha a h1
        · rw [List.mem_singleton.mp h2]
          exact hb'
      · intro p hpmem b hbmem
        rcases catAppend_mem _ _ _ p hpmem b hbmem with ⟨q, hq, hbq⟩ | hba
        · exact hc q hq b hbq
        · rw [hba]
          exact hb'
  · exact ⟨ha, hc⟩

theorem processLine_brazos_free (root : String) (st : ParseState) (raw : String)
    (ha : ∀ a ∈ st.articles, hasBrazosArriba a.image_name = false)
    (hc : ∀ p ∈ st.categories, ∀ a ∈ p.2, hasBrazosArriba a.image_name = false) :
    (∀ a ∈ (processLine root st raw).articles,
        hasBrazosArriba a.image_name = false) ∧
    (∀ p ∈ (processLine root st raw).categories, ∀ a ∈ p.2,
        hasBrazosArriba a.image_name = false) := by
  simp only [processLine]
  repeat' split
  all_goals first
    | exact parseRecord_brazos_free root st _ ha hc
    | exact ⟨ha, hc⟩

theorem foldl_processLine_brazos_free (root : String) (lines : List String)
    (st : ParseState)
    (ha : ∀ a ∈ st.articles, hasBrazosArriba a.image_name = false)
    (hc : ∀ p ∈ st.categories, ∀ a ∈ p.2, hasBrazosArriba a.image_name = false) :
    (∀ a ∈ (lines.foldl (processLine root) st).articles,
        hasBrazosArriba a.image_name = false) ∧
    (∀ p ∈ (lines.foldl (processLine root) st).categories, ∀ a ∈ p.2,
        hasBrazosArriba a.image_name = false) := by
  induction lines generalizing st with
  | nil => exact ⟨ha, hc⟩
  | cons l rest ih =>
      rw [List.foldl_cons]
      obtain ⟨ha', hc'⟩ := processLine_brazos_free root st l ha hc
      exact ih _ ha' hc'

theorem parseRecord_in_data (root : String) (st : ParseState)
    (parts : List (List Char)) :
    (parseRecord root st parts).in_data = st.in_data := by
  unfold parseRecord
  split
  · rename_i p0 p1 p2 p3 p4 p5 p6 rest
    by_cases hb : hasBrazosArriba ⟨p1⟩ = true
    · simp [hb]
    · have hb' : hasBrazosArriba ⟨p1⟩ = false := by
        cases hx : hasBrazosArriba ⟨p1⟩
        · rfl
        · exact absurd hx hb
      simp [hb']
  · rfl

theorem processLine_in_data_mono (root : String) (st : ParseState)
    (raw : String) (h : st.in_data = true) :
    (processLine root st raw).in_data = true := by
  simp only [processLine]
  repeat' split
  all_goals first
    | (rw [parseRecord_in_data]; exact h)
    | rfl
    | exact h

theorem foldl_processLine_in_data_mono (root : String) (lines : List String)
    (st : ParseState) (h : st.in_data = true) :
    (lines.foldl (processLine root) st).in_data = true := by
  induction lines generalizing st with
  | nil => exact h
  | cons l rest ih =>
      rw [List.foldl_cons]
      exact ih _ (processLine_in_data_mono root st l h)

theorem processLine_token_skip (root : String) (st : ParseState) (raw : String)
    (ht : hasDataToken (pyStrip raw.toList) = true) :
    (processLine root st raw).articles = st.articles ∧
    (processLine root st raw).categories = st.categories := by
  simp only [processLine]
  repeat' split
  all_goals first
    | exact ⟨rfl, rfl⟩
    | exact absurd ht (by assumption)

/-! ### Export-geometry lemmas -/

theorem rectUnite_pos (a b : RectF) (ha : 0 < a.rw ∧ 0 < a.rh)
    (hb : 0 < b.rw ∧ 0 < b.rh) :
    0 < (a.unite b).rw ∧ 0 < (a.unite b).rh := by
  have ha' : a.isNullRect = false := by
    unfold RectF.isNullRect
    have : a.rw ≠ 0 := by omega
    simp [this]
  have hb' : b.isNullRect = false := by
    unfold RectF.isNullRect
    have : b.rw ≠ 0 := by omega
    simp [this]
  unfold RectF.unite
  simp only [ha', hb', Bool.false_eq_true, if_false]
  constructor
  · have h1 : min a.rx b.rx ≤ a.rx := min_le_left _ _
    have h2 : a.rx + a.rw ≤ max (a.rx + a.rw) (b.rx + b.rw) := le_max_left _ _
    omega
  · have h1 : min a.ry b.ry ≤ a.ry := min_le_left _ _
    have h2 : a.ry + a.rh ≤ max (a.ry + a.rh) (b.ry + b.rh) := le_max_left _ _
    omega

theorem itemRect_pos (it : PixItem) (h : it.pixmap.isNull = false) :
    0 < (itemRect it).rw ∧ 0 < (itemRect it).rh := by
  unfold Pixmap.isNull at h
  simp only [Bool.or_eq_false_iff, beq_eq_false_iff_ne, ne_eq] at h
  unfold itemRect
  dsimp only
  omega

theorem unite_null_left (b : RectF) : RectF.unite ⟨0, 0, 0, 0⟩ b = b := by
  simp [RectF.unite, RectF.isNullRect]

theorem foldl_unite_pos (items : List PixItem)
    (h : ∀ it ∈ items, it.pixmap.isNull = false) (r : RectF)
    (hr : 0 < r.rw ∧ 0 < r.rh) :
    0 < (items.foldl (fun r it => r.unite (itemRect it)) r).rw ∧
    0 < (items.foldl (fun r it => r.unite (itemRect it)) r).rh := by
  induction items generalizing r with
  | nil => exact hr
  | cons it rest ih =>
      rw [List.foldl_cons]
      exact ih (fun x hx => h x (List.mem_cons_of_mem _ hx)) _
        (rectUnite_pos r (itemRect it) hr
          (itemRect_pos it (h it (List.mem_cons_self _ _))))

theorem itemsBoundingRect_pos (items : List PixItem)
    (h : ∀ it ∈ items, it.pixmap.isNull = false) (hne : items ≠ []) :
    0 < (itemsBoundingRect items).rw ∧ 0 < (itemsBoundingRect items).rh := by
  cases items with
  | nil => exact absurd rfl hne
  | cons it rest =>
      unfold itemsBoundingRect
      rw [List.foldl_cons, unite_null_left]
      exact foldl_unite_pos rest
        (fun x hx => h x (List.mem_cons_of_mem _ hx)) _
        (itemRect_pos it (h it (List.mem_cons_self _ _)))

/-! ### First-match lookup lemma -/

theorem find?_first_match (l : List Article) (i : String) (a : Article)
    (h : l.find? (fun b => b.id == i) = some a) :
    a.id = i ∧ ∃ l₁ l₂, l = l₁ ++ a :: l₂ ∧ ∀ b ∈ l₁, b.id ≠ i := by
  induction l with
  | nil => simp [List.find?] at h
  | cons p rest ih =>
      cases hb : (p.id == i) with
      | true =>
          simp only [List.find?, hb] at h
          have hpa : p = a := by injection h
          subst hpa
          refine ⟨by simpa using hb, [], rest, rfl, ?_⟩
          intro b hbm
          simp at hbm
      | false =>
          simp only [List.find?, hb] at h
          obtain ⟨hid, l₁, l₂, heq, hnone⟩ := ih h
          refine ⟨hid, p :: l₁, l₂, by rw [heq]; rfl, ?_⟩
          intro b hbm
          rcases List.mem_cons.mp hbm with hbp | hbm'
          · rw [hbp]
            simpa using hb
          · exact hnone b hbm'

/-! ### Round-trip lemmas -/

theorem update_article_fresh (decode : String → Pixmap) (st : CanvasState)
    (a : Article) (cd : CharacterData)
    (hcd : st.character_data = some cd)
    (hpix : dictHas st.pixmap_items a.layer_name = false)
    (hact : dictHas st.active_articles a.layer_name = false)
    (hdec : (decode a.local_path).isNull = false) :
    update_article decode st a
      = ⟨some cd, st.active_articles ++ [(a.layer_name, a)],
         st.pixmap_items ++ [(a.layer_name,
           ⟨decode a.local_path, a.x, a.y, get_article_z_index a⟩)]⟩ := by
  unfold update_article
  simp only [hpix, Bool.false_eq_true, if_false, hdec, hcd]
  rw [dictSet_of_not_has _ _ _ hact, dictSet_of_not_has _ _ _ hpix]

theorem restore_fold_appends (decode : String → Pixmap) (cd : CharacterData)
    (l : List (String × Article)) (done : List (String × Article))
    (pix : List (String × PixItem))
    (hkeys : pix.map Prod.fst = done.map Prod.fst)
    (hlay : ∀ p ∈ l, p.1 = p.2.layer_name)
    (hnd : ((done ++ l).map Prod.fst).Nodup)
    (hfind : ∀ p ∈ l, get_article_by_id cd p.2.id = some p.2)
    (hdec : ∀ p ∈ l, (decode p.2.local_path).isNull = false) :
    ((l.map (fun p => p.2.id)).foldl (restore_step decode cd)
        ⟨some cd, done, pix⟩).active_articles = done ++ l := by
  induction l generalizing done pix with
  | nil => simp
  | cons p rest ih =>
      rw [List.map_cons, List.foldl_cons]
      have hlayp := hlay p (List.mem_cons_self _ _)
      have hnotdone : p.1 ∉ done.map Prod.fst := by
        rw [List.map_append] at hnd
        rw [List.nodup_append] at hnd
        intro hmem
        exact hnd.2.2 hmem (by simp)
      have hact_not : dictHas done p.2.layer_name = false := by
        rw [← hlayp]
        cases hb : dictHas done p.1
        · rfl
        · exact absurd ((dictHas_iff_mem_keys done p.1).mp hb) hnotdone
      have hpix_not : dictHas pix p.2.layer_name = false := by
        rw [dictHas_congr_keys pix done p.2.layer_name hkeys]
        exact hact_not
      have hstep : restore_step decode cd ⟨some cd, done, pix⟩ p.2.id
          = ⟨some cd, done ++ [(p.1, p.2)],
             pix ++ [(p.1, ⟨decode p.2.local_path, p.2.x, p.2.y,
               get_article_z_index p.2⟩)]⟩ := by
        unfold restore_step
        rw [hfind p (List.mem_cons_self _ _)]
        show update_article decode ⟨some cd, done, pix⟩ p.2 = _
        rw [update_article_fresh decode ⟨some cd, done, pix⟩ p.2 cd rfl
          hpix_not hact_not (hdec p (List.mem_cons_self _ _))]
        rw [hlayp]
      rw [hstep]
      have hres := ih (done ++ [(p.1, p.2)])
        (pix ++ [(p.1, ⟨decode p.2.local_path, p.2.x, p.2.y,
          get_article_z_index p.2⟩)])
        (by simp [hkeys])
        (fun q hq => hlay q (List.mem_cons_of_mem _ hq))
        (by
          have : (done ++ [(p.1, p.2)]) ++ rest = done ++ p :: rest := by
            rw [List.append_assoc]
            rfl
          rw [this]
          exact hnd)
        (fun q hq => hfind q (List.mem_cons_of_mem _ hq))
        (fun q hq => hdec q (List.mem_cons_of_mem _ hq))
      rw [hres, List.append_assoc]
      rfl

/-! ### Claim theorems -/

/-- C2: `get_article_by_id` (the spec's `find_by_id`, modelled from the
spec because its definition is absent from `src/` — only its callers and
tests are) returns the first article in catalog (file) order whose id
matches and `none` when no article has that id, and the project-restore
step applies exactly this lookup. -/
theorem c2_find_by_id_first_match (cd : CharacterData) (art_id : String) :
    (get_article_by_id cd art_id = none ↔ ∀ a ∈ cd.articles, a.id ≠ art_id) ∧
    (∀ a : Article, get_article_by_id cd art_id = some a →
       a.id = art_id ∧ ∃ l₁ l₂, cd.articles = l₁ ++ a :: l₂ ∧
         ∀ b ∈ l₁, b.id ≠ art_id) ∧
    (∀ (decode : String → Pixmap) (st : CanvasState),
       restore_step decode cd st art_id
         = match get_article_by_id cd art_id with
           | some a => update_article decode st a
           | none => st) := by
  refine ⟨?_, fun a h => find?_first_match cd.articles art_id a h,
    fun decode st => rfl⟩
  unfold get_article_by_id
  rw [List.find?_eq_none]
  constructor
  · intro h a ha
    simpa using h a ha
  · intro h a ha
    simpa using h a ha

theorem c2_witness :
    shirtArt.id = "2" ∧
    (∃ l₁ l₂, fixtureCatalog.articles = l₁ ++ shirtArt :: l₂ ∧
      ∀ b ∈ l₁, b.id ≠ "2") :=
  (c2_find_by_id_first_match fixtureCatalog "2").2.1 shirtArt (by decide)

/-- C3: selecting an article whose image fails to decode ends with the
article's layer holding no active entry, whether or not the layer was
previously occupied — the prior entry is removed before the image is
validated and is not restored. (The hypothesis that the two canvas maps
agree on the layer is an invariant of every reachable state, cf. the C9
theorem.) -/
theorem c3_decode_failure_unselects (decode : String → Pixmap)
    (st : CanvasState) (a : Article)
    (hsync : dictHas st.active_articles a.layer_name
      = dictHas st.pixmap_items a.layer_name)
    (hnull : (decode a.local_path).isNull = true) :
    dictGet (update_article decode st a).active_articles a.layer_name
      = none := by
  unfold update_article
  by_cases hp : dictHas st.pixmap_items a.layer_name
  · simp only [hp, if_true, hnull]
    exact dictGet_dictDel_self _ _
  · have hp' : dictHas st.pixmap_items a.layer_name = false := by
      cases hb : dictHas st.pixmap_items a.layer_name
      · rfl
      · exact absurd hb hp
    simp only [hp', Bool.false_eq_true, if_false, hnull, if_true]
    have hact : dictHas st.active_articles a.layer_name = false :=
      hsync.trans hp'
    unfold dictHas at hact
    cases hg : dictGet st.active_articles a.layer_name
    · rfl
    · rw [hg] at hact
      simp at hact

theorem c3_witness :
    dictGet c3State.active_articles bodyArt.layer_name = some bodyArt ∧
    dictGet (update_article decodeNone c3State bodyArt).active_articles
      bodyArt.layer_name = none :=
  ⟨by decide,
   c3_decode_failure_unselects decodeNone c3State bodyArt (by decide)
     (by decide)⟩

/-- C4: after any finite sequence of `update_article` calls starting from
an empty selection, the active map's key list is duplicate-free (at most
one article per layer), and a further successful selection leaves the
article's layer mapped to exactly that article — an occupied layer is
replaced, never stacked. -/
theorem c4_layer_exclusivity (decode : String → Pixmap) (cd : CharacterData)
    (seq : List Article) :
    (((seq.foldl (update_article decode)
        (set_character freshCanvas cd)).active_articles.map Prod.fst).Nodup) ∧
    (∀ a : Article, (decode a.local_path).isNull = false →
       dictGet (update_article decode
           (seq.foldl (update_article decode)
             (set_character freshCanvas cd)) a).active_articles a.layer_name
         = some a) := by
  constructor
  · exact nodup_keys_foldl_update decode seq _ List.nodup_nil
  · intro a hdec
    apply update_article_select_success
    · rw [character_data_foldl_update]
      rfl
    · exact hdec

theorem c4_witness :
    ((c4State.active_articles.map Prod.fst).Nodup) ∧
    dictGet (update_article decodeAll c4State shirtArt).active_articles
      shirtArt.layer_name = some shirtArt :=
  ⟨(c4_layer_exclusivity decodeAll fixtureCatalog [bodyArt, shirtArt]).1,
   (c4_layer_exclusivity decodeAll fixtureCatalog [bodyArt, shirtArt]).2
     shirtArt (by decide)⟩

/-- C6: an inventory record whose image name contains `_brazos_arriba`
never appears in the loaded catalog — neither in the article list nor in
any category list, for every inventory file. -/
theorem c6_parse_filtering (name res_path fname : String)
    (lines : List String) :
    (∀ a ∈ (CharacterData.load name res_path fname lines).articles,
        hasBrazosArriba a.image_name = false) ∧
    (∀ p ∈ (CharacterData.load name res_path fname lines).categories,
        ∀ a ∈ p.2, hasBrazosArriba a.image_name = false) := by
  unfold CharacterData.load loadArticles
  exact foldl_processLine_brazos_free _ lines _
    (by intro a ha; simp at ha)
    (by intro p hp; simp at hp)

theorem c6_witness :
    boyBodyArt ∈ (CharacterData.load "boy" "res" "articles.txt"
      filterLines).articles ∧
    hasBrazosArriba boyBodyArt.image_name = false :=
  ⟨by decide,
   (c6_parse_filtering "boy" "res" "articles.txt" filterLines).1 boyBodyArt
     (by decide)⟩

/-- C8: in a well-formed data-mode record (at least 7 quote-delimited
fields, image not filtered), the `x`/`y` fields are parsed as integers;
when both parses succeed the parsed values are stored, and when either
fails both coordinates of the stored article default to `0`. The parse is
a total function — no field content makes the load raise. -/
theorem c8_xy_parse_defaults (root : String) (st : ParseState)
    (p0 p1 p2 p3 p4 p5 p6 : List Char) (rest : List (List Char))
    (hb : hasBrazosArriba ⟨p1⟩ = false) :
    (∀ x y : Int, pyInt? p4 = some x → pyInt? p5 = some y →
       (parseRecord root st
           (p0 :: p1 :: p2 :: p3 :: p4 :: p5 :: p6 :: rest)).articles
         = st.articles ++ [⟨⟨p0⟩, ⟨p1⟩, ⟨p2⟩, ⟨p3⟩, x, y, ⟨p6⟩,
             pathJoin (pathJoin root "data") ⟨p1⟩⟩]) ∧
    ((pyInt? p4 = none ∨ pyInt? p5 = none) →
       (parseRecord root st
           (p0 :: p1 :: p2 :: p3 :: p4 :: p5 :: p6 :: rest)).articles
         = st.articles ++ [⟨⟨p0⟩, ⟨p1⟩, ⟨p2⟩, ⟨p3⟩, 0, 0, ⟨p6⟩,
             pathJoin (pathJoin root "data") ⟨p1⟩⟩]) := by
  have hcase : ∀ xy : Int × Int, parseXY p4 p5 = xy →
      (parseRecord root st
          (p0 :: p1 :: p2 :: p3 :: p4 :: p5 :: p6 :: rest)).articles
        = st.articles ++ [⟨⟨p0⟩, ⟨p1⟩, ⟨p2⟩, ⟨p3⟩, xy.1, xy.2, ⟨p6⟩,
            pathJoin (pathJoin root "data") ⟨p1⟩⟩] := by
    intro xy hxy
    simp only [parseRecord, hxy, hb, Bool.false_eq_true, if_false]
  constructor
  · intro x y hx hy
    exact hcase (x, y) (by unfold parseXY; rw [hx, hy])
  · intro hfail
    refine hcase (0, 0) ?_
    unfold parseXY
    rcases hfail with hx | hy
    · rw [hx]
    · rw [hy]
      cases pyInt? p4 <;> rfl

theorem c8_witness :
    (parseRecord "res/boy" ⟨true, [], []⟩
        ("2".toList :: "shirt.png".toList :: "tops".toList :: "tops".toList
          :: "aa".toList :: "20".toList :: "-1".toList :: [])).articles
      = [⟨"2", "shirt.png", "tops", "tops", 0, 0, "-1",
          "res/boy/data/shirt.png"⟩] := by
  have h := (c8_xy_parse_defaults "res/boy" ⟨true, [], []⟩ "2".toList
    "shirt.png".toList "tops".toList "tops".toList "aa".toList "20".toList
    "-1".toList [] (by decide)).2 (Or.inl (by decide))
  exact h.trans (by decide)

/-- C9: after any sequence of `set_character`, `clear`, `update_article`
and `remove_article` from a fresh canvas, a layer has an entry in the
active-article map exactly when it has one in the pixmap-item map: every
operation inserts into or deletes from both maps together. -/
theorem c9_maps_in_sync (decode : String → Pixmap) (ops : List CanvasOp)
    (layer : String) :
    dictHas (applyOps decode ops).active_articles layer
      = dictHas (applyOps decode ops).pixmap_items layer := by
  apply dictHas_congr_keys
  exact sync_foldl_applyOp decode ops freshCanvas rfl

/-- C10: once the parser has seen a line containing `HCDataSetFile_data`
it stays in data mode for the rest of the file, and any line containing
that token is itself consumed as a marker (or skipped as a comment), never
parsed as a record. -/
theorem c10_data_mode_latch (root : String) :
    (∀ (st : ParseState) (raw : String), st.in_data = true →
       (processLine root st raw).in_data = true) ∧
    (∀ (st : ParseState) (lines : List String), st.in_data = true →
       (lines.foldl (processLine root) st).in_data = true) ∧
    (∀ (st : ParseState) (raw : String),
       hasDataToken (pyStrip raw.toList) = true →
       (processLine root st raw).articles = st.articles ∧
       (processLine root st raw).categories = st.categories) :=
  ⟨fun st raw h => processLine_in_data_mono root st raw h,
   fun st lines h => foldl_processLine_in_data_mono root lines st h,
   fun st raw ht => processLine_token_skip root st raw ht⟩

theorem c10_witness :
    ((processLine "res/hero" ⟨true, [], []⟩
        "\"HCDataSetFile_data\" \"1.0\"").in_data = true) ∧
    ((["\"1\" \"body.png\" \"body\" \"body\" \"0\" \"0\" \"-1\""].foldl
        (processLine "res/hero") ⟨true, [], []⟩).in_data = true) ∧
    ((processLine "res/hero" ⟨true, [bodyArt], [("body", [bodyArt])]⟩
        "\"HCDataSetFile_data\" \"1.0\"").articles = [bodyArt]) := by
  refine ⟨(c10_data_mode_latch "res/hero").1 _ _ rfl,
    (c10_data_mode_latch "res/hero").2.1 _ _ rfl, ?_⟩
  have h := (c10_data_mode_latch "res/hero").2.2
    ⟨true, [bodyArt], [("body", [bodyArt])]⟩
    "\"HCDataSetFile_data\" \"1.0\"" (by decide)
  exact h.1

/-- C5 (counterexample): with no active images `save_image` does not
produce a 300×300 buffer — `rect.adjust(-10, -10, 10, 10)` runs after the
default rectangle is substituted, so the buffer is 320×320. -/
theorem c5_counterexample :
    save_image_size freshCanvas ≠ (300, 300) ∧
    save_image_size freshCanvas = (320, 320) := by decide

/-- C5 (amended): when no images are active the fixed default 300×300
rectangle is still expanded by the 10-pixel padding on all sides, so the
buffer is 320×320; when at least one image is active the buffer is the
items' bounding box expanded by 10 pixels on all four sides. (Placed
pixmaps are non-null in every reachable state since failed decodes are
never inserted.) -/
theorem c5_export_geometry (st : CanvasState)
    (hpos : ∀ p ∈ st.pixmap_items, p.2.pixmap.isNull = false) :
    (st.pixmap_items = [] → save_image_size st = (320, 320)) ∧
    (st.pixmap_items ≠ [] →
       (itemsBoundingRect (st.pixmap_items.map (fun p => p.2))).isEmptyRect
         = false ∧
       save_image_rect st
         = (itemsBoundingRect (st.pixmap_items.map (fun p => p.2))).adjust
             (-10) (-10) 10 10) := by
  constructor
  · intro h
    unfold save_image_size save_image_rect
    rw [h]
    decide
  · intro hne
    have hpos' : ∀ it ∈ st.pixmap_items.map (fun p => p.2),
        it.pixmap.isNull = false := by
      intro it hit
      obtain ⟨p, hp, hpe⟩ := List.mem_map.mp hit
      exact hpe ▸ hpos p hp
    have hmapne : st.pixmap_items.map (fun p => p.2) ≠ [] := by
      intro hmap
      exact hne (List.map_eq_nil_iff.mp hmap)
    have hbr := itemsBoundingRect_pos _ hpos' hmapne
    have hem : (itemsBoundingRect
        (st.pixmap_items.map (fun p => p.2))).isEmptyRect = false := by
      simp only [RectF.isEmptyRect, Bool.or_eq_false_iff,
        decide_eq_false_iff_not, not_le]
      exact hbr
    refine ⟨hem, ?_⟩
    unfold save_image_rect
    simp only [hem, Bool.false_eq_true, if_false]

theorem c5_witness :
    save_image_size freshCanvas = (320, 320) ∧
    (itemsBoundingRect (c3State.pixmap_items.map (fun p => p.2))).isEmptyRect
      = false ∧
    save_image_rect c3State
      = (itemsBoundingRect (c3State.pixmap_items.map (fun p => p.2))).adjust
          (-10) (-10) 10 10 := by
  refine ⟨(c5_export_geometry freshCanvas (by decide)).1 rfl, ?_, ?_⟩
  · exact ((c5_export_geometry c3State (by decide)).2 (by decide)).1
  · exact ((c5_export_geometry c3State (by decide)).2 (by decide)).2

theorem outfit_fold_mem (L : List (String × List Article))
    (choose : String → Nat) (a : Article)
    (ha : a ∈ L.foldr (fun p acc =>
        match p.2.get? (choose p.1 % p.2.length) with
        | some b => b :: acc
        | none => acc) []) :
    ∃ p ∈ L, a ∈ p.2 := by
  induction L with
  | nil => simp at ha
  | cons p rest ih =>
      rw [List.foldr_cons] at ha
      cases hg : p.2.get? (choose p.1 % p.2.length) with
      | none =>
          rw [hg] at ha
          obtain ⟨q, hq, haq⟩ := ih ha
          exact ⟨q, List.mem_cons_of_mem _ hq, haq⟩
      | some b =>
          rw [hg] at ha
          rcases List.mem_cons.mp ha with hab | ha'
          · exact ⟨p, List.mem_cons_self _ _, hab ▸ List.get?_mem hg⟩
          · obtain ⟨q, hq, haq⟩ := ih ha'
            exact ⟨q, List.mem_cons_of_mem _ hq, haq⟩

theorem outfit_fold_length (L : List (String × List Article))
    (choose : String → Nat) :
    (L.foldr (fun p acc =>
        match p.2.get? (choose p.1 % p.2.length) with
        | some b => b :: acc
        | none => acc) []).length
      = (L.filter (fun p => !p.2.isEmpty)).length := by
  induction L with
  | nil => rfl
  | cons p rest ih =>
      rw [List.foldr_cons]
      cases hsnd : p.2 with
      | nil =>
          simp [List.filter, hsnd]
          simpa using ih
      | cons b bs =>
          have hlt : choose p.1 % (b :: bs).length < (b :: bs).length :=
            Nat.mod_lt _ (Nat.succ_pos _)
          cases hg : (b :: bs).get? (choose p.1 % (b :: bs).length) with
          | none =>
              have := List.get?_eq_none.mp hg
              omega
          | some b' =>
              have hf : List.filter (fun p => !p.2.isEmpty) (p :: rest)
                  = p :: List.filter (fun p => !p.2.isEmpty) rest := by
                simp [List.filter, hsnd]
              rw [hf]
              simp
              simpa using ih

/-- C7: `get_random_outfit` (modelled from the spec with an explicit
choice oracle, its definition being absent from `src/` — only the caller
is) includes one article drawn from each nonempty category's list, empty
categories contribute nothing, and on a catalog with zero categories it
returns an empty outfit, which `randomize_character` treats as "nothing to
randomize", leaving the canvas untouched. -/
theorem c7_random_outfit (cd : CharacterData) (choose : String → Nat)
    (decode : String → Pixmap) (st : CanvasState) :
    (cd.categories = [] → get_random_outfit cd choose = []) ∧
    (∀ a ∈ get_random_outfit cd choose, ∃ p ∈ cd.categories, a ∈ p.2) ∧
    ((get_random_outfit cd choose).length
       = (cd.categories.filter (fun p => !p.2.isEmpty)).length) ∧
    (st.character_data = some cd → cd.categories = [] →
       randomize_character decode choose st = st) := by
  refine ⟨?_, ?_, ?_, ?_⟩
  · intro h
    unfold get_random_outfit
    rw [h]
    rfl
  · intro a ha
    exact outfit_fold_mem cd.categories choose a ha
  · exact outfit_fold_length cd.categories choose
  · intro hcd hcat
    have hout : get_random_outfit cd choose = [] := by
      unfold get_random_outfit
      rw [hcat]
      rfl
    simp [randomize_character, hcd, hout]

theorem c7_witness :
    get_random_outfit emptyCatalog (fun _ => 0) = [] ∧
    randomize_character decodeAll (fun _ => 0) emptyState = emptyState ∧
    (∃ p ∈ fixtureCatalog.categories, bodyArt ∈ p.2) := by
  refine ⟨(c7_random_outfit emptyCatalog (fun _ => 0) decodeAll
      emptyState).1 rfl,
    (c7_random_outfit emptyCatalog (fun _ => 0) decodeAll emptyState).2.2.2
      rfl rfl,
    (c7_random_outfit fixtureCatalog (fun _ => 0) decodeAll emptyState).2.1
      bodyArt (by decide)⟩

/-- C1 (counterexample): the round trip is not exact for every valid-id
selection. Catalog `rtCatalog` holds two pose variants with the same id
`"1"` on layers `body` and `tops`; with only the `tops` variant selected,
every saved id resolves, yet the load maps id `"1"` to layer `body` (the
first match), not `tops`: the layer→id mapping set differs. -/
theorem c1_counterexample :
    save_to_file rtState = some rtDoc ∧
    (∀ i ∈ rtDoc.active_articles,
       (get_article_by_id rtCatalog i).isSome = true) ∧
    ("tops", "1") ∈ rtState.active_articles.map (fun p => (p.1, p.2.id)) ∧
    ("tops", "1") ∉ (open_project_apply decodeAll rtCatalog
        rtDoc).active_articles.map (fun p => (p.1, p.2.id)) := by decide

/-- C1 (amended): saving and reloading reproduces the layer→article-id
map exactly (as a list, hence as a set), provided every active article is
the catalog's first match for its own id and its image decodes — the
extra condition the first-match `get_article_by_id` lookup forces when
ids repeat across layers. A saved id that does not resolve is skipped
without failing the load. -/
theorem c1_round_trip (decode : String → Pixmap) (cd : CharacterData)
    (st : CanvasState) (doc : ProjectDoc)
    (hcd : st.character_data = some cd)
    (hlay : ∀ p ∈ st.active_articles, p.1 = p.2.layer_name)
    (hnd : (st.active_articles.map Prod.fst).Nodup)
    (hfirst : ∀ p ∈ st.active_articles,
       get_article_by_id cd p.2.id = some p.2)
    (hdec : ∀ p ∈ st.active_articles,
       (decode p.2.local_path).isNull = false)
    (hsave : save_to_file st = some doc) :
    (open_project_apply decode cd doc).active_articles
      = st.active_articles ∧
    (∀ (s : CanvasState) (i : String), get_article_by_id cd i = none →
       restore_step decode cd s i = s) := by
  constructor
  · have hids : doc.active_articles
        = st.active_articles.map (fun p => p.2.id) := by
      unfold save_to_file at hsave
      rw [hcd] at hsave
      have hinj := Option.some.inj hsave
      rw [← hinj]
    unfold open_project_apply
    rw [hids]
    have hfold := restore_fold_appends decode cd st.active_articles [] []
      rfl hlay (by simpa using hnd) hfirst hdec
    simpa using hfold
  · intro s i h
    unfold restore_step
    rw [h]

theorem c1_witness :
    (open_project_apply decodeAll fixtureCatalog c1SavedDoc).active_articles
      = c4State.active_articles ∧
    restore_step decodeAll fixtureCatalog c4State "99" = c4State :=
  ⟨(c1_round_trip decodeAll fixtureCatalog c4State c1SavedDoc (by decide)
      (by decide) (by decide) (by decide) (by decide) (by decide)).1,
   (c1_round_trip decodeAll fixtureCatalog c4State c1SavedDoc (by decide)
      (by decide) (by decide) (by decide) (by decide) (by decide)).2
     c4State "99" (by decide)⟩

end Stortrooper
